import Mathlib

/-!
# Verification of the Grøstl hash implementation (`src/groestl/src/groestl.rs`)

A shallow embedding of the Grøstl hash core in Lean 4.  Bytes are `Nat`
values below 256 (XOR of such values stays below 256); blocks and matrix
rows are `List Nat`.  Definitions mirror the Rust source
(`groestl.rs`); components of the repository that live outside `src/`
(the `consts` tables, the `Matrix` multiply, the `DigestBuffer` driver and
`write_u64_be`) are modelled from the specification and carry a
`Modelled from the spec:` doc comment.
-/

namespace GroestlSpec

/-! ## Constants (modelled from the spec, the consts module is not in src/) -/

/-- Modelled from the spec: the standard AES S-box (`SBOX` in the missing
`consts` module), 256 bytes. -/
def SBOX : List Nat := [
  0x63, 0x7c, 0x77, 0x7b, 0xf2, 0x6b, 0x6f, 0xc5, 0x30, 0x01, 0x67, 0x2b, 0xfe, 0xd7, 0xab, 0x76,
  0xca, 0x82, 0xc9, 0x7d, 0xfa, 0x59, 0x47, 0xf0, 0xad, 0xd4, 0xa2, 0xaf, 0x9c, 0xa4, 0x72, 0xc0,
  0xb7, 0xfd, 0x93, 0x26, 0x36, 0x3f, 0xf7, 0xcc, 0x34, 0xa5, 0xe5, 0xf1, 0x71, 0xd8, 0x31, 0x15,
  0x04, 0xc7, 0x23, 0xc3, 0x18, 0x96, 0x05, 0x9a, 0x07, 0x12, 0x80, 0xe2, 0xeb, 0x27, 0xb2, 0x75,
  0x09, 0x83, 0x2c, 0x1a, 0x1b, 0x6e, 0x5a, 0xa0, 0x52, 0x3b, 0xd6, 0xb3, 0x29, 0xe3, 0x2f, 0x84,
  0x53, 0xd1, 0x00, 0xed, 0x20, 0xfc, 0xb1, 0x5b, 0x6a, 0xcb, 0xbe, 0x39, 0x4a, 0x4c, 0x58, 0xcf,
  0xd0, 0xef, 0xaa, 0xfb, 0x43, 0x4d, 0x33, 0x85, 0x45, 0xf9, 0x02, 0x7f, 0x50, 0x3c, 0x9f, 0xa8,
  0x51, 0xa3, 0x40, 0x8f, 0x92, 0x9d, 0x38, 0xf5, 0xbc, 0xb6, 0xda, 0x21, 0x10, 0xff, 0xf3, 0xd2,
  0xcd, 0x0c, 0x13, 0xec, 0x5f, 0x97, 0x44, 0x17, 0xc4, 0xa7, 0x7e, 0x3d, 0x64, 0x5d, 0x19, 0x73,
  0x60, 0x81, 0x4f, 0xdc, 0x22, 0x2a, 0x90, 0x88, 0x46, 0xee, 0xb8, 0x14, 0xde, 0x5e, 0x0b, 0xdb,
  0xe0, 0x32, 0x3a, 0x0a, 0x49, 0x06, 0x24, 0x5c, 0xc2, 0xd3, 0xac, 0x62, 0x91, 0x95, 0xe4, 0x79,
  0xe7, 0xc8, 0x37, 0x6d, 0x8d, 0xd5, 0x4e, 0xa9, 0x6c, 0x56, 0xf4, 0xea, 0x65, 0x7a, 0xae, 0x08,
  0xba, 0x78, 0x25, 0x2e, 0x1c, 0xa6, 0xb4, 0xc6, 0xe8, 0xdd, 0x74, 0x1f, 0x4b, 0xbd, 0x8b, 0x8a,
  0x70, 0x3e, 0xb5, 0x66, 0x48, 0x03, 0xf6, 0x0e, 0x61, 0x35, 0x57, 0xb9, 0x86, 0xc1, 0x1d, 0x9e,
  0xe1, 0xf8, 0x98, 0x11, 0x69, 0xd9, 0x8e, 0x94, 0x9b, 0x1e, 0x87, 0xe9, 0xce, 0x55, 0x28, 0xdf,
  0x8c, 0xa1, 0x89, 0x0d, 0xbf, 0xe6, 0x42, 0x68, 0x41, 0x99, 0x2d, 0x0f, 0xb0, 0x54, 0xbb, 0x16]

/-- Modelled from the spec: round-constant table `C_P`, an 8 x 16 byte table
indexed row*16+col; row 0 column j holds j<<4, rows 1..7 are zero. -/
def C_P : List Nat :=
  (List.range 128).map (fun n => if n < 16 then n * 16 else 0)

/-- Modelled from the spec: round-constant table `C_Q`; row 7 column j holds
0xFF xor (j<<4), rows 0..6 are 0xFF. -/
def C_Q : List Nat :=
  (List.range 128).map (fun n => if 112 ≤ n then 0xff ^^^ ((n - 112) * 16) else 0xff)

/-- Modelled from the spec: shift table for P, short variant. -/
def SHIFTS_P : List Nat := [0, 1, 2, 3, 4, 5, 6, 7]

/-- Modelled from the spec: shift table for Q, short variant. -/
def SHIFTS_Q : List Nat := [1, 3, 5, 7, 0, 2, 4, 6]

/-- Modelled from the spec: shift table for P, wide variant. -/
def SHIFTS_P_WIDE : List Nat := [0, 1, 2, 3, 4, 5, 6, 11]

/-- Modelled from the spec: shift table for Q, wide variant. -/
def SHIFTS_Q_WIDE : List Nat := [1, 3, 5, 11, 0, 2, 4, 6]

/-- Modelled from the spec: the MDS matrix `B`, an 8 x 8 circulant over
GF(2^8) with first row (2,2,3,4,5,3,5,7), row i a right rotation by i of
row 0 (row i element k is row 0 element (k + 8 - i) mod 8). -/
def B : List (List Nat) :=
  (List.range 8).map (fun i =>
    (List.range 8).map (fun k => [2, 2, 3, 4, 5, 3, 5, 7].getD ((k + 8 - i) % 8) 0))

/-! ## GF(2^8) arithmetic (modelled from the spec, the matrix crate is not in src/) -/

/-- Modelled from the spec: multiplication by x in GF(2^8) with the
irreducible polynomial 0x11B. -/
def xtime (a : Nat) : Nat :=
  if 128 ≤ a then (a * 2) ^^^ 0x11b else a * 2

/-- Helper for `gmul`: Russian-peasant multiplication over the 8 bits of b. -/
def gmulAux (a b acc : Nat) : Nat → Nat
  | 0 => acc
  | n + 1 => gmulAux (xtime a) (b / 2) (if b % 2 = 1 then acc ^^^ a else acc) n

/-- Modelled from the spec: carry-less multiplication in GF(2^8) modulo
0x11B (the multiply used by `mul_array` of the matrix crate). -/
def gmul (a b : Nat) : Nat := gmulAux a b 0 8

/-! ## Byte matrix (8 rows, c columns, row-major list of rows) -/

/-- Modelled from the spec: matrix product `result[j][i] = XOR_k B[j][k] * m[k][i]`
over GF(2^8) — the `mul_array` of the matrix crate, as used by `mix_bytes`. -/
def mul_array (cols : Nat) (m : List (List Nat)) (b : List (List Nat)) : List (List Nat) :=
  (List.range 8).map (fun j =>
    (List.range cols).map (fun i =>
      (List.range 8).foldl
        (fun acc k => acc ^^^ gmul ((b.getD j []).getD k 0) ((m.getD k []).getD i 0)) 0))

/-! ## Functions embedded from `groestl.rs` -/

/-- Embeds `xor_generic_array` from groestl.rs: element-wise XOR of two
length-L byte arrays. -/
def xor_generic_array (L : Nat) (a1 a2 : List Nat) : List Nat :=
  (List.range L).map (fun i => a1.getD i 0 ^^^ a2.getD i 0)

/-- Embeds `gcd` from groestl.rs: recursive Euclid, recursing on the second
argument. -/
def gcd (a b : Nat) : Nat :=
  if b = 0 then a else gcd b (a % b)
termination_by b
decreasing_by exact Nat.mod_lt _ (Nat.pos_of_ne_zero (by assumption))

/-- Fuel-bounded version of `gcd`, making the termination measure explicit:
`none` means the fuel ran out before the recursion bottomed out. -/
def gcdFuel : Nat → Nat → Nat → Option Nat
  | 0, _, _ => none
  | fuel + 1, a, b => if b = 0 then some a else gcdFuel fuel b (a % b)

/-- Embeds `block_to_matrix` from groestl.rs: matrix[j][i] = block[i*8 + j]
(column-major load), 8 rows, `cols` columns. -/
def block_to_matrix (cols : Nat) (block : List Nat) : List (List Nat) :=
  (List.range 8).map (fun j => (List.range cols).map (fun i => block.getD (i * 8 + j) 0))

/-- Embeds `matrix_to_block` from groestl.rs: block[i*8 + j] = matrix[j][i]
(column-major store), producing the `cols * 8`-byte block. -/
def matrix_to_block (cols : Nat) (m : List (List Nat)) : List Nat :=
  (List.range (cols * 8)).map (fun n => (m.getD (n % 8) []).getD (n / 8) 0)

/-- The inner `loop` of `shift_bytes` from groestl.rs, with explicit fuel:
starting at index `k`, repeatedly set `row[k] := row[(k+shift) % cols]` and
advance `k`, stopping (and returning the row together with the final `k`)
when the next position comes back to the cycle start `j`.  `none` means the
fuel was exhausted, which `shift_loop_terminates` proves unreachable for
fuel `cols`. -/
def shiftCycle (cols shift j : Nat) (row : List Nat) (k : Nat) : Nat → Option (List Nat × Nat)
  | 0 => none
  | fuel + 1 =>
    let pos := (k + shift) % cols
    if pos = j then some (row, k)
    else shiftCycle cols shift j (row.set k (row.getD pos 0)) pos fuel

/-- One iteration of the outer `for j in 0..d` loop of `shift_bytes`:
save `tmp = row[j]`, walk the cycle starting at `j`, then write `tmp`
at the final index. -/
def shiftRowCycle (cols shift j : Nat) (row : List Nat) : List Nat :=
  let tmp := row.getD j 0
  match shiftCycle cols shift j row j cols with
  | some (r, k) => r.set k tmp
  | none => row

/-- The per-row body of `shift_bytes` from groestl.rs: skip when the shift
is 0, otherwise run one cycle for each j below gcd(shift, cols).  The
own `gcd` helper of the source is embedded above; `gcd_eq_nat_gcd` proves
it equal to `Nat.gcd`, which is used here so the definition evaluates in
the kernel. -/
def shiftRow (cols shift : Nat) (row : List Nat) : List Nat :=
  if shift = 0 then row
  else (List.range (Nat.gcd shift cols)).foldl (fun r j => shiftRowCycle cols shift j r) row

/-- Embeds `shift_bytes` from groestl.rs: row i is cyclically shifted by shifts[i]. -/
def shift_bytes (cols : Nat) (shifts : List Nat) (m : List (List Nat)) : List (List Nat) :=
  (List.range 8).map (fun i => shiftRow cols (shifts.getD i 0) (m.getD i []))

/-- Embeds `sub_bytes` from groestl.rs: SBOX applied to every matrix entry. -/
def sub_bytes (m : List (List Nat)) : List (List Nat) :=
  m.map (fun row => row.map (fun x => SBOX.getD x 0))

/-- Embeds `add_round_constant` from groestl.rs: XOR entry (i,j) with c[i*16+j];
when c[0] = 0x00 row 0 is additionally XORed with the round index, when
c[0] = 0xff row 7 is. -/
def add_round_constant (cols : Nat) (c : List Nat) (round : Nat)
    (m : List (List Nat)) : List (List Nat) :=
  (List.range 8).map (fun i =>
    (List.range cols).map (fun j =>
      let v := (m.getD i []).getD j 0 ^^^ c.getD (i * 16 + j) 0
      if c.getD 0 0 = 0x00 ∧ i = 0 then v ^^^ round
      else if c.getD 0 0 = 0xff ∧ i = 7 then v ^^^ round
      else v))

/-- Embeds `mix_bytes` from groestl.rs: multiply by the MDS matrix `B`. -/
def mix_bytes (cols : Nat) (m : List (List Nat)) : List (List Nat) :=
  mul_array cols m B

/-- The shared round structure of `p` and `q` from groestl.rs:
AddRoundConstant, SubBytes, ShiftBytes, MixBytes for `rounds` rounds over
the column-major matrix view of the block. -/
def permute (cols rounds : Nat) (c : List Nat) (shifts : List Nat)
    (block : List Nat) : List Nat :=
  matrix_to_block cols <|
    (List.range rounds).foldl
      (fun m round =>
        mix_bytes cols (shift_bytes cols shifts (sub_bytes (add_round_constant cols c round m))))
      (block_to_matrix cols block)

/-! ## Chaining state (`GroestlState` from groestl.rs) -/

/-- Modelled from the spec: `write_u64_be` from the byte_tools crate —
the big-endian 8-byte encoding of a 64-bit value. -/
def writeU64BE (v : Nat) : List Nat :=
  (List.range 8).map (fun i => v / 2 ^ (8 * (7 - i)) % 256)

/-- Embeds `GroestlState` from groestl.rs.  The Rust type parameters `OutputSize`
and `BlockSize` become the fields `outputBytes` and `blockBytes`. -/
structure GroestlState where
  blockBytes : Nat
  outputBytes : Nat
  state : List Nat
  rounds : Nat
  num_blocks : Nat
  deriving Repr, DecidableEq

/-- The column count `matrix.cols()` for the block size of this state. -/
def GroestlState.cols (s : GroestlState) : Nat := s.blockBytes / 8

/-- Embeds `p` from groestl.rs: the permutation with C_P and the P shift table
(wide table when the block is 128 bytes). -/
def GroestlState.p (s : GroestlState) (block : List Nat) : List Nat :=
  permute s.cols s.rounds C_P
    (if s.blockBytes = 128 then SHIFTS_P_WIDE else SHIFTS_P) block

/-- Embeds `q` from groestl.rs: the permutation with C_Q and the Q shift table. -/
def GroestlState.q (s : GroestlState) (block : List Nat) : List Nat :=
  permute s.cols s.rounds C_Q
    (if s.blockBytes = 128 then SHIFTS_Q_WIDE else SHIFTS_Q) block

/-- Embeds `compress` from groestl.rs: state := P(state ⊕ m) ⊕ Q(m) ⊕ state and
num_blocks += 1. -/
def GroestlState.compress (s : GroestlState) (input_block : List Nat) : GroestlState :=
  { s with
    state := xor_generic_array s.blockBytes
      (xor_generic_array s.blockBytes
        (s.p (xor_generic_array s.blockBytes s.state input_block))
        (s.q input_block))
      s.state,
    num_blocks := s.num_blocks + 1 }

/-- Embeds `GroestlState::default` from groestl.rs: zero state with the output
length in bits written big-endian into the last 8 bytes, 14 rounds for a
128-byte block, 10 for a 64-byte block; `none` models the `unreachable!`
hit for any other block size.  No check relates `outputBytes` to
`blockBytes`. -/
def groestlDefault (outputBytes blockBytes : Nat) : Option GroestlState :=
  let output_bits := outputBytes * 8
  let iv := List.replicate (blockBytes - 8) 0 ++ writeU64BE output_bits
  if blockBytes = 128 then
    some ⟨blockBytes, outputBytes, iv, 14, 0⟩
  else if blockBytes = 64 then
    some ⟨blockBytes, outputBytes, iv, 10, 0⟩
  else none

/-- Embeds `GroestlState::finalize` from groestl.rs: a = P(state) ⊕ state, return
the last `outputBytes` bytes of a; `none` models the panic of
`clone_from_slice` on `a[a.len() - outputBytes..]` when outputBytes
exceeds the block length. -/
def GroestlState.finalize (s : GroestlState) : Option (List Nat) :=
  let a := xor_generic_array s.blockBytes (s.p s.state) s.state
  if s.outputBytes ≤ a.length then some (a.drop (a.length - s.outputBytes)) else none

/-! ## Streaming driver (`Groestl` from groestl.rs, buffer modelled from the spec) -/

/-- Embeds `Groestl` from groestl.rs: a `DigestBuffer` (here: the list of buffered
bytes, always shorter than a block between calls) plus the chaining state. -/
structure Groestl where
  buffer : List Nat
  state : GroestlState
  deriving Repr, DecidableEq

/-- Helper for `splitBlocks`, structural on a fuel argument: while at least
`L` elements remain (and `L` is positive), peel off the first `L` as a
block.  The fuel starts at the list length, which suffices because every
step drops at least one element. -/
def splitBlocksGo (L : Nat) : Nat → List Nat → List (List Nat) × List Nat
  | 0, l => ([], l)
  | fuel + 1, l =>
    if 0 < L ∧ L ≤ l.length then
      let r := splitBlocksGo L fuel (l.drop L)
      (l.take L :: r.1, r.2)
    else ([], l)

/-- Cut a byte list into full blocks of length `L` plus a remainder shorter
than `L`. -/
def splitBlocks (L : Nat) (l : List Nat) : List (List Nat) × List Nat :=
  splitBlocksGo L l.length l

/-- Embeds `Groestl::process` from groestl.rs; the buffering is modelled from the
spec (`DigestBuffer::input` is not in src/): bytes are copied into the
buffer, every full block is compressed as soon as it is formed, and an
exactly-full buffer is drained immediately, so the remainder kept in the
buffer is always shorter than a block. -/
def Groestl.process (g : Groestl) (input : List Nat) : Groestl :=
  let r := splitBlocks g.state.blockBytes (g.buffer ++ input)
  { buffer := r.2, state := r.1.foldl (fun st b => st.compress b) g.state }

/-- Modelled from the spec: `DigestBuffer::standard_padding(8, f)` (the
digest_buffer crate is not in src/): append the 0x80 marker; if fewer than
8 bytes remain in the current block, zero-fill it, compress it and start a
fresh zero block; either way the buffer is left zero-filled up to position
blockBytes − 8, ready for the 8-byte length field. -/
def standardPadding (st : GroestlState) (buf : List Nat) :
    GroestlState × List Nat :=
  let L := st.blockBytes
  let buf := buf ++ [0x80]
  if L - buf.length < 8 then
    (st.compress (buf ++ List.replicate (L - buf.length) 0), List.replicate (L - 8) 0)
  else
    (st, buf ++ List.replicate (L - 8 - buf.length) 0)

/-- The final block that `Groestl::finalize` compresses: the padded buffer
with `num_blocks + 1` (read after the padding, so after any padding-carry
compression) written big-endian into the last 8 bytes. -/
def Groestl.finalBlock (g : Groestl) : List Nat :=
  let r := standardPadding g.state g.buffer
  r.2 ++ writeU64BE (r.1.num_blocks + 1)

/-- Embeds `Groestl::finalize` from groestl.rs: standard padding (possibly
compressing a carry block), write num_blocks + 1 big-endian into the last
8 bytes, compress the final block, and run the output transformation. -/
def Groestl.finalize (g : Groestl) : Option (List Nat) :=
  let r := standardPadding g.state g.buffer
  ((r.1).compress (r.2 ++ writeU64BE (r.1.num_blocks + 1))).finalize

/-- The hasher for a given output and block size, with an empty buffer. -/
def groestlNew (outputBytes blockBytes : Nat) : Option Groestl :=
  (groestlDefault outputBytes blockBytes).map (fun st => ⟨[], st⟩)

/-- Hash a whole message with Grøstl-256 (d = 32, ℓ = 64). -/
def groestl256 (msg : List Nat) : Option (List Nat) :=
  (groestlNew 32 64).bind (fun g => (g.process msg).finalize)

/-- Lower-case hex encoding of a byte list. -/
def hexEncode (l : List Nat) : String :=
  String.mk (l.foldr
    (fun b acc =>
      (if b / 16 < 10 then Char.ofNat (48 + b / 16) else Char.ofNat (87 + b / 16)) ::
      (if b % 16 < 10 then Char.ofNat (48 + b % 16) else Char.ofNat (87 + b % 16)) :: acc)
    [])

/-! ## Concrete states used by witnesses -/

/-- The freshly constructed Grøstl-256 chaining state (d = 32, blockBytes = 64). -/
def st256 : GroestlState :=
  ⟨64, 32, List.replicate 56 0 ++ writeU64BE 256, 10, 0⟩

/-- The state constructed for the incompatible pair d = 72, blockBytes = 64. -/
def st72 : GroestlState :=
  ⟨64, 72, List.replicate 56 0 ++ writeU64BE 576, 10, 0⟩

/-- A Grøstl-256 hasher whose buffer holds 56 zero bytes (padding must
spill into a carry block). -/
def hasher56 : Groestl := ⟨List.replicate 56 0, st256⟩

end GroestlSpec

namespace GroestlSpec

/-! ## Helper lemmas -/

theorem getD_range_map {α : Type} (f : Nat → α) (n i : Nat) (d : α) (h : i < n) :
    ((List.range n).map f).getD i d = f i := by
  rw [List.getD_eq_getElem _ _ (by simpa using h)]
  simp

theorem range_map_getD (l : List Nat) (n : Nat) (hn : n = l.length) :
    (List.range n).map (fun i => l.getD i 0) = l := by
  subst hn
  apply List.ext_getElem (by simp)
  intro i h1 h2
  rw [List.getElem_map, List.getElem_range, List.getD_eq_getElem _ _ h2]

theorem gcd_eq_nat_gcd (a b : Nat) : gcd a b = Nat.gcd a b := by
  induction b using Nat.strong_induction_on generalizing a with
  | _ b ih =>
    rw [gcd]
    by_cases hb : b = 0
    · simp [hb]
    · rw [if_neg hb, ih (a % b) (Nat.mod_lt _ (Nat.pos_of_ne_zero hb)) b]
      rw [Nat.gcd_comm b (a % b), ← Nat.gcd_rec b a, Nat.gcd_comm b a]

theorem gcdFuel_eq (fuel a b : Nat) (h : b < fuel) :
    gcdFuel fuel a b = some (gcd a b) := by
  induction fuel generalizing a b with
  | zero => omega
  | succ fuel ih =>
    rw [gcdFuel, gcd]
    by_cases hb : b = 0
    · simp [hb]
    · rw [if_neg hb, if_neg hb, ih b (a % b)]
      exact Nat.lt_of_lt_of_le (Nat.mod_lt _ (Nat.pos_of_ne_zero hb)) (by omega)

/-- The inner loop of `shift_bytes` reaches its stop condition within the
fuel as soon as some number of further steps, below the fuel, lands the
running index back on the cycle start `j`. -/
theorem shiftCycle_isSome_of_exists (c s j : Nat) :
    ∀ (fuel k : Nat) (row : List Nat),
      (∃ n, n < fuel ∧ (k + (n + 1) * s) % c = j) →
      (shiftCycle c s j row k fuel).isSome = true := by
  intro fuel
  induction fuel with
  | zero => intro k row h; omega
  | succ fuel ih =>
    intro k row h
    rw [shiftCycle]
    by_cases hpos : (k + s) % c = j
    · simp [hpos]
    · simp only [hpos, if_neg, ite_false, Option.isSome]
      apply ih
      obtain ⟨n, hn, hnj⟩ := h
      match n, hnj with
      | 0, hnj => exact absurd (by simpa using hnj) hpos
      | m + 1, hnj =>
        refine ⟨m, by omega, ?_⟩
        rw [Nat.mod_add_mod]
        have he : k + s + (m + 1) * s = k + (m + 1 + 1) * s := by ring
        rw [he]
        exact hnj

theorem splitBlocksGo_fuel_congr (L : Nat) :
    ∀ f1 f2 l, l.length ≤ f1 → l.length ≤ f2 →
      splitBlocksGo L f1 l = splitBlocksGo L f2 l := by
  intro f1
  induction f1 with
  | zero =>
    intro f2 l h1 h2
    have hl : l = [] := List.eq_nil_of_length_eq_zero (by omega)
    subst hl
    cases f2 with
    | zero => rfl
    | succ g => simp only [splitBlocksGo]; rw [if_neg (by simp; omega)]
  | succ f ih =>
    intro f2 l h1 h2
    by_cases hc : 0 < L ∧ L ≤ l.length
    · obtain ⟨g, rfl⟩ : ∃ g, f2 = g + 1 := ⟨f2 - 1, by omega⟩
      simp only [splitBlocksGo]
      rw [if_pos hc, if_pos hc]
      rw [ih g (l.drop L) (by simp; omega) (by simp; omega)]
    · cases f2 with
      | zero =>
        have hl : l = [] := List.eq_nil_of_length_eq_zero (by omega)
        subst hl
        simp only [splitBlocksGo]
        rw [if_neg (by simp; omega)]
      | succ g =>
        simp only [splitBlocksGo]
        rw [if_neg hc, if_neg hc]

theorem splitBlocks_cons (L : Nat) (l : List Nat) (h : 0 < L ∧ L ≤ l.length) :
    splitBlocks L l =
      (l.take L :: (splitBlocks L (l.drop L)).1, (splitBlocks L (l.drop L)).2) := by
  obtain ⟨n, hn⟩ : ∃ n, l.length = n + 1 := ⟨l.length - 1, by omega⟩
  rw [splitBlocks, hn, splitBlocksGo, if_pos h]
  rw [splitBlocksGo_fuel_congr L n (l.drop L).length (l.drop L) (by simp; omega) le_rfl]
  rfl

theorem splitBlocks_nil (L : Nat) (l : List Nat) (h : ¬(0 < L ∧ L ≤ l.length)) :
    splitBlocks L l = ([], l) := by
  cases l with
  | nil =>
    rw [splitBlocks]
    rfl
  | cons a t =>
    rw [splitBlocks]
    show splitBlocksGo L (t.length + 1) (a :: t) = ([], a :: t)
    rw [splitBlocksGo, if_neg h]

theorem splitBlocks_append (L : Nat) (hL : 0 < L) (x y : List Nat) :
    splitBlocks L (x ++ y) =
      ((splitBlocks L x).1 ++ (splitBlocks L ((splitBlocks L x).2 ++ y)).1,
       (splitBlocks L ((splitBlocks L x).2 ++ y)).2) := by
  suffices hgen : ∀ n (x y : List Nat), x.length = n →
      splitBlocks L (x ++ y) =
        ((splitBlocks L x).1 ++ (splitBlocks L ((splitBlocks L x).2 ++ y)).1,
         (splitBlocks L ((splitBlocks L x).2 ++ y)).2) from
    hgen x.length x y rfl
  intro n
  induction n using Nat.strong_induction_on with
  | _ n ih =>
    intro x y hx
    by_cases hc : L ≤ x.length
    · rw [splitBlocks_cons L x ⟨hL, hc⟩]
      rw [splitBlocks_cons L (x ++ y) ⟨hL, by simp; omega⟩]
      rw [List.take_append_of_le_length hc, List.drop_append_of_le_length hc]
      rw [ih (x.drop L).length (by simp; omega) (x.drop L) y rfl]
      rfl
    · rw [splitBlocks_nil L x (by omega)]
      simp

theorem foldl_compress_blockBytes (st : GroestlState) (bs : List (List Nat)) :
    (bs.foldl (fun s b => s.compress b) st).blockBytes = st.blockBytes := by
  induction bs generalizing st with
  | nil => rfl
  | cons b bs ih => exact ih (st.compress b)

/-- C8: calling update once with s leaves the hasher (chaining state, buffer
contents and fill, num_blocks) in the same state as calling update with s1
and then with s2, for every split s = s1 ++ s2. -/
theorem process_append (g : Groestl) (s1 s2 : List Nat) :
    (g.process s1).process s2 = g.process (s1 ++ s2) := by
  by_cases hL : 0 < g.state.blockBytes
  · show Groestl.process
      ⟨(splitBlocks g.state.blockBytes (g.buffer ++ s1)).2, _⟩ s2 = _
    rw [Groestl.process, Groestl.process]
    simp only [foldl_compress_blockBytes]
    have ha : g.buffer ++ (s1 ++ s2) = (g.buffer ++ s1) ++ s2 := by
      rw [List.append_assoc]
    rw [ha, splitBlocks_append g.state.blockBytes hL (g.buffer ++ s1) s2]
    simp [List.foldl_append]
  · have h0 : ∀ l, splitBlocks g.state.blockBytes l = ([], l) := fun l =>
      splitBlocks_nil _ l (by omega)
    rw [Groestl.process, Groestl.process, Groestl.process]
    simp only [foldl_compress_blockBytes, h0]
    simp [h0, List.append_assoc]

/-- C8 has no hypothesis; this closed instance only records a concrete run:
one update with 100 bytes agrees with updates of 30 and 70 bytes. -/
theorem process_append_example :
    (Groestl.process (Groestl.process ⟨[], st256⟩ (List.replicate 30 1))
        (List.replicate 70 2)).buffer =
      (Groestl.process ⟨[], st256⟩
        (List.replicate 30 1 ++ List.replicate 70 2)).buffer := by
  rw [process_append ⟨[], st256⟩ (List.replicate 30 1) (List.replicate 70 2)]

/-- C10: the recursive `gcd` terminates — the fuelled version with fuel
b + 1 (the second argument strictly decreases) already reaches the base
case — and the inner loop of the in-place rotation terminates: starting from
`j` it returns to `j`, within fuel c / gcd(s, c) (one cycle) and a
fortiori within the fuel `cols` used by `shift_bytes`. -/
theorem shift_loop_terminates (a b c s j : Nat) (row : List Nat)
    (hs : 1 ≤ s) (_hsc : s < c) (hj : j < c) :
    gcdFuel (b + 1) a b = some (gcd a b) ∧
    (shiftCycle c s j row j (c / Nat.gcd s c)).isSome = true ∧
    (shiftCycle c s j row j c).isSome = true := by
  have hc : 0 < c := by omega
  have hg : 0 < Nat.gcd s c := Nat.gcd_pos_of_pos_left c hs
  have hgle : Nat.gcd s c ≤ c := Nat.le_of_dvd hc (Nat.gcd_dvd_right s c)
  have hq : 1 ≤ c / Nat.gcd s c := (Nat.one_le_div_iff hg).mpr hgle
  have hdvd : c ∣ (c / Nat.gcd s c) * s := by
    obtain ⟨u, hu⟩ := Nat.gcd_dvd_left s c
    refine ⟨u, ?_⟩
    calc c / Nat.gcd s c * s
        = c / Nat.gcd s c * (Nat.gcd s c * u) := by rw [← hu]
      _ = (c / Nat.gcd s c * Nat.gcd s c) * u := by ring
      _ = c * u := by rw [Nat.div_mul_cancel (Nat.gcd_dvd_right s c)]
  have hkey : (j + (c / Nat.gcd s c) * s) % c = j := by
    obtain ⟨w, hw⟩ := hdvd
    rw [hw, Nat.add_mul_mod_self_left, Nat.mod_eq_of_lt hj]
  refine ⟨gcdFuel_eq (b + 1) a b (by omega), ?_, ?_⟩
  · apply shiftCycle_isSome_of_exists
    refine ⟨c / Nat.gcd s c - 1, by omega, ?_⟩
    have he : c / Nat.gcd s c - 1 + 1 = c / Nat.gcd s c := by omega
    rw [he]; exact hkey
  · apply shiftCycle_isSome_of_exists
    refine ⟨c / Nat.gcd s c - 1, by
        have := Nat.div_le_self c (Nat.gcd s c); omega, ?_⟩
    have he : c / Nat.gcd s c - 1 + 1 = c / Nat.gcd s c := by omega
    rw [he]; exact hkey

/-- Witness for C10 at a = 12, b = 8, c = 8, s = 3, j = 2. -/
theorem shift_loop_terminates_witness :
    gcdFuel 9 12 8 = some (gcd 12 8) ∧
    (shiftCycle 8 3 2 (List.replicate 8 0) 2 (8 / Nat.gcd 3 8)).isSome = true ∧
    (shiftCycle 8 3 2 (List.replicate 8 0) 2 8).isSome = true :=
  shift_loop_terminates 12 8 8 3 2 (List.replicate 8 0)
    (by decide) (by decide) (by decide)

theorem exists_len8 (l : List Nat) (h : l.length = 8) :
    ∃ a0 a1 a2 a3 a4 a5 a6 a7, l = [a0, a1, a2, a3, a4, a5, a6, a7] := by
  obtain ⟨a0, l, rfl⟩ := List.exists_of_length_succ l (show l.length = 7 + 1 by omega)
  simp only [List.length_cons] at h
  obtain ⟨a1, l, rfl⟩ := List.exists_of_length_succ l (show l.length = 6 + 1 by omega)
  simp only [List.length_cons] at h
  obtain ⟨a2, l, rfl⟩ := List.exists_of_length_succ l (show l.length = 5 + 1 by omega)
  simp only [List.length_cons] at h
  obtain ⟨a3, l, rfl⟩ := List.exists_of_length_succ l (show l.length = 4 + 1 by omega)
  simp only [List.length_cons] at h
  obtain ⟨a4, l, rfl⟩ := List.exists_of_length_succ l (show l.length = 3 + 1 by omega)
  simp only [List.length_cons] at h
  obtain ⟨a5, l, rfl⟩ := List.exists_of_length_succ l (show l.length = 2 + 1 by omega)
  simp only [List.length_cons] at h
  obtain ⟨a6, l, rfl⟩ := List.exists_of_length_succ l (show l.length = 1 + 1 by omega)
  simp only [List.length_cons] at h
  obtain ⟨a7, l, rfl⟩ := List.exists_of_length_succ l (show l.length = 0 + 1 by omega)
  simp only [List.length_cons] at h
  have hnil : l = [] := List.eq_nil_of_length_eq_zero (by omega)
  subst hnil
  exact ⟨a0, a1, a2, a3, a4, a5, a6, a7, rfl⟩

theorem shiftRow_rotateLeft8 (s : Nat) (hs : s < 8) (row : List Nat)
    (hrow : row.length = 8) :
    shiftRow 8 s row = row.rotateLeft s := by
  obtain ⟨a0, a1, a2, a3, a4, a5, a6, a7, rfl⟩ := exists_len8 row hrow
  interval_cases s <;>
    simp [shiftRow, shiftRowCycle, shiftCycle, List.rotateLeft, List.range_succ]

theorem exists_len16 (l : List Nat) (h : l.length = 16) :
    ∃ b0 b1 b2 b3 b4 b5 b6 b7 b8 b9 b10 b11 b12 b13 b14 b15, l = [b0, b1, b2, b3, b4, b5, b6, b7, b8, b9, b10, b11, b12, b13, b14, b15] := by
  obtain ⟨b0, l, rfl⟩ := List.exists_of_length_succ l (show l.length = 15 + 1 by omega)
  simp only [List.length_cons] at h
  obtain ⟨b1, l, rfl⟩ := List.exists_of_length_succ l (show l.length = 14 + 1 by omega)
  simp only [List.length_cons] at h
  obtain ⟨b2, l, rfl⟩ := List.exists_of_length_succ l (show l.length = 13 + 1 by omega)
  simp only [List.length_cons] at h
  obtain ⟨b3, l, rfl⟩ := List.exists_of_length_succ l (show l.length = 12 + 1 by omega)
  simp only [List.length_cons] at h
  obtain ⟨b4, l, rfl⟩ := List.exists_of_length_succ l (show l.length = 11 + 1 by omega)
  simp only [List.length_cons] at h
  obtain ⟨b5, l, rfl⟩ := List.exists_of_length_succ l (show l.length = 10 + 1 by omega)
  simp only [List.length_cons] at h
  obtain ⟨b6, l, rfl⟩ := List.exists_of_length_succ l (show l.length = 9 + 1 by omega)
  simp only [List.length_cons] at h
  obtain ⟨b7, l, rfl⟩ := List.exists_of_length_succ l (show l.length = 8 + 1 by omega)
  simp only [List.length_cons] at h
  obtain ⟨b8, l, rfl⟩ := List.exists_of_length_succ l (show l.length = 7 + 1 by omega)
  simp only [List.length_cons] at h
  obtain ⟨b9, l, rfl⟩ := List.exists_of_length_succ l (show l.length = 6 + 1 by omega)
  simp only [List.length_cons] at h
  obtain ⟨b10, l, rfl⟩ := List.exists_of_length_succ l (show l.length = 5 + 1 by omega)
  simp only [List.length_cons] at h
  obtain ⟨b11, l, rfl⟩ := List.exists_of_length_succ l (show l.length = 4 + 1 by omega)
  simp only [List.length_cons] at h
  obtain ⟨b12, l, rfl⟩ := List.exists_of_length_succ l (show l.length = 3 + 1 by omega)
  simp only [List.length_cons] at h
  obtain ⟨b13, l, rfl⟩ := List.exists_of_length_succ l (show l.length = 2 + 1 by omega)
  simp only [List.length_cons] at h
  obtain ⟨b14, l, rfl⟩ := List.exists_of_length_succ l (show l.length = 1 + 1 by omega)
  simp only [List.length_cons] at h
  obtain ⟨b15, l, rfl⟩ := List.exists_of_length_succ l (show l.length = 0 + 1 by omega)
  simp only [List.length_cons] at h
  have hnil : l = [] := List.eq_nil_of_length_eq_zero (by omega)
  subst hnil
  exact ⟨b0, b1, b2, b3, b4, b5, b6, b7, b8, b9, b10, b11, b12, b13, b14, b15, rfl⟩

set_option maxHeartbeats 1600000 in
theorem shiftRow_rotateLeft16 (s : Nat) (hs : s < 16) (row : List Nat)
    (hrow : row.length = 16) :
    shiftRow 16 s row = row.rotateLeft s := by
  obtain ⟨b0, b1, b2, b3, b4, b5, b6, b7, b8, b9, b10, b11, b12, b13, b14, b15, rfl⟩ :=
    exists_len16 row hrow
  interval_cases s <;>
    simp [shiftRow, shiftRowCycle, shiftCycle, List.rotateLeft, List.range_succ]

/-- C5: for an 8 x c byte matrix (c = 8 or 16, the two block widths the
program admits), any row index i and any shift value shifts[i] < c,
`shift_bytes` replaces row i by its cyclic left rotation by shifts[i]
(computed in place by the gcd-cycle algorithm; a zero shift leaves the row
unchanged). -/
theorem shift_bytes_rotates (m : List (List Nat)) (shifts : List Nat) (c i : Nat)
    (hc : c = 8 ∨ c = 16) (hi : i < 8) (hlen : (m.getD i []).length = c)
    (hs : shifts.getD i 0 < c) :
    (shift_bytes c shifts m).getD i [] = (m.getD i []).rotateLeft (shifts.getD i 0) := by
  rw [shift_bytes, getD_range_map _ _ _ _ hi]
  rcases hc with rfl | rfl
  · exact shiftRow_rotateLeft8 _ hs _ hlen
  · exact shiftRow_rotateLeft16 _ hs _ hlen

/-- Witness for C5: the matrix loaded from the block (0,...,63), row 2,
shift table SHIFTS_P (shift 2). -/
theorem shift_bytes_rotates_witness :
    (shift_bytes 8 SHIFTS_P (block_to_matrix 8 (List.range 64))).getD 2 [] =
      ((block_to_matrix 8 (List.range 64)).getD 2 []).rotateLeft
        (SHIFTS_P.getD 2 0) :=
  shift_bytes_rotates (block_to_matrix 8 (List.range 64)) SHIFTS_P 8 2
    (Or.inl rfl) (by decide) (by decide) (by decide)

/-- C1: one call to `compress` replaces the chaining state by
P(h ⊕ m) ⊕ Q(m) ⊕ h — XOR taken byte-wise over all blockBytes bytes —
and increments num_blocks by exactly 1. -/
theorem compress_spec (s : GroestlState) (m : List Nat) (i : Nat)
    (hi : i < s.blockBytes) :
    (s.compress m).state.length = s.blockBytes ∧
    (s.compress m).state.getD i 0 =
      ((s.p (xor_generic_array s.blockBytes s.state m)).getD i 0 ^^^
        (s.q m).getD i 0) ^^^ s.state.getD i 0 ∧
    (s.compress m).num_blocks = s.num_blocks + 1 := by
  refine ⟨by simp [GroestlState.compress, xor_generic_array], ?_, rfl⟩
  show (xor_generic_array s.blockBytes
      (xor_generic_array s.blockBytes
        (s.p (xor_generic_array s.blockBytes s.state m)) (s.q m))
      s.state).getD i 0 = _
  rw [xor_generic_array, getD_range_map _ _ _ _ hi,
    xor_generic_array, getD_range_map _ _ _ _ hi]

/-- Witness for C1 at the fresh Grøstl-256 state, a zero message block and
byte index 5. -/
theorem compress_spec_witness :
    (st256.compress (List.replicate 64 3)).state.length = st256.blockBytes ∧
    (st256.compress (List.replicate 64 3)).state.getD 5 0 =
      ((st256.p (xor_generic_array st256.blockBytes st256.state
          (List.replicate 64 3))).getD 5 0 ^^^
        (st256.q (List.replicate 64 3)).getD 5 0) ^^^ st256.state.getD 5 0 ∧
    (st256.compress (List.replicate 64 3)).num_blocks = st256.num_blocks + 1 :=
  compress_spec st256 (List.replicate 64 3) 5 (by decide)

/-- C3: `GroestlState::finalize` returns exactly the last outputBytes bytes
of P(h) ⊕ h, so every digest it returns has length outputBytes. -/
theorem finalize_spec (s : GroestlState) (hd : s.outputBytes ≤ s.blockBytes) :
    s.finalize =
      some ((xor_generic_array s.blockBytes (s.p s.state) s.state).drop
        (s.blockBytes - s.outputBytes)) ∧
    ∀ d, s.finalize = some d → d.length = s.outputBytes := by
  have hlen : (xor_generic_array s.blockBytes (s.p s.state) s.state).length =
      s.blockBytes := by
    simp [xor_generic_array]
  have h1 : s.finalize =
      some ((xor_generic_array s.blockBytes (s.p s.state) s.state).drop
        (s.blockBytes - s.outputBytes)) := by
    rw [GroestlState.finalize, if_pos (by rw [hlen]; exact hd), hlen]
  refine ⟨h1, ?_⟩
  intro d hd2
  rw [h1] at hd2
  cases hd2
  rw [List.length_drop, hlen]
  omega

/-- Witness for C3 at the fresh Grøstl-256 state (d = 32 ≤ 64). -/
theorem finalize_spec_witness :
    st256.finalize =
      some ((xor_generic_array st256.blockBytes (st256.p st256.state)
        st256.state).drop (st256.blockBytes - st256.outputBytes)) ∧
    ∀ d, st256.finalize = some d → d.length = st256.outputBytes :=
  finalize_spec st256 (by decide)

/-- C6: `matrix_to_block` inverts `block_to_matrix` on every block of
length cols·8, and the mapping is column-major: block byte i·8+j is matrix
element (row j, column i). -/
theorem block_matrix_round_trip (c : Nat) (b : List Nat) (hb : b.length = c * 8) :
    matrix_to_block c (block_to_matrix c b) = b ∧
    ∀ i j, i < c → j < 8 →
      ((block_to_matrix c b).getD j []).getD i 0 = b.getD (i * 8 + j) 0 := by
  have hmap : ∀ j i, j < 8 → i < c →
      ((block_to_matrix c b).getD j []).getD i 0 = b.getD (i * 8 + j) 0 := by
    intro j i hj hi
    rw [block_to_matrix, getD_range_map _ _ _ _ hj, getD_range_map _ _ _ _ hi]
  constructor
  · rw [matrix_to_block]
    have hfun : ∀ n ∈ List.range (c * 8),
        ((block_to_matrix c b).getD (n % 8) []).getD (n / 8) 0 = b.getD n 0 := by
      intro n hn
      rw [List.mem_range] at hn
      rw [hmap (n % 8) (n / 8) (by omega) (by omega)]
      congr 1
      omega
    rw [List.map_congr_left hfun]
    exact range_map_getD b (c * 8) hb.symm
  · intro i j hi hj
    exact hmap j i hj hi

/-- Witness for C6 at c = 8 and the block (0,...,63). -/
theorem block_matrix_round_trip_witness :
    matrix_to_block 8 (block_to_matrix 8 (List.range 64)) = List.range 64 ∧
    ∀ i j, i < 8 → j < 8 →
      ((block_to_matrix 8 (List.range 64)).getD j []).getD i 0 =
        (List.range 64).getD (i * 8 + j) 0 :=
  block_matrix_round_trip 8 (List.range 64) (by decide)

/-- C7: a freshly constructed chaining state is all zero bytes except the
last 8, which hold the output length in bits (outputBytes·8) big-endian. -/
theorem default_state (d L : Nat) (hL : L = 64 ∨ L = 128) :
    (groestlDefault d L).map GroestlState.state =
      some (List.replicate (L - 8) 0 ++ writeU64BE (d * 8)) := by
  rcases hL with rfl | rfl <;> rfl

/-- Witness for C7 at d = 32, L = 64: the trailing 8 bytes are
[0,0,0,0,0,0,1,0] (big-endian 256) and the first 56 bytes are zero. -/
theorem default_state_witness :
    (groestlDefault 32 64).map GroestlState.state =
      some (List.replicate 56 0 ++ [0, 0, 0, 0, 0, 0, 1, 0]) := by
  rw [default_state 32 64 (Or.inl rfl)]
  rfl

/-- Counterexample to C2: after feeding 56 zero bytes into a fresh
Grøstl-256 hasher, num_blocks is 0 and the padding spills into a carry
block (only 7 bytes remain after the 0x80 marker), yet the value written
big-endian into the last 8 bytes of the final block is 2, not the
0 + 1 = 1 the claim predicts — the carry-block compression DID update
num_blocks. -/
theorem finalize_count_counterexample :
    (Groestl.process ⟨[], st256⟩ (List.replicate 56 0)).state.num_blocks = 0 ∧
    (Groestl.process ⟨[], st256⟩ (List.replicate 56 0)).buffer.length = 56 ∧
    st256.blockBytes - (56 + 1) < 8 ∧
    (Groestl.process ⟨[], st256⟩ (List.replicate 56 0)).finalBlock.drop 56 =
      writeU64BE 2 ∧
    writeU64BE 2 ≠ writeU64BE (0 + 1) :=
  ⟨by decide, by decide, by decide, by decide, by decide⟩

/-- C2 (amended): when the padding spills into an extra block (fewer than
8 bytes remain after the 0x80 marker), that padding-carry block is
compressed and, like every compression, increments num_blocks; the 64-bit
big-endian value written into the last 8 bytes of the final block is
therefore pre-finalize num_blocks + 2, counting the message-block
compressions, the padding-carry block AND the final length-padded
block. -/
theorem finalize_count_spec (g : Groestl)
    (hcarry : g.state.blockBytes - (g.buffer.length + 1) < 8) :
    (standardPadding g.state g.buffer).1.num_blocks = g.state.num_blocks + 1 ∧
    g.finalBlock.drop (g.state.blockBytes - 8) =
      writeU64BE (g.state.num_blocks + 1 + 1) := by
  have hcond : g.state.blockBytes - (g.buffer ++ [0x80]).length < 8 := by
    simp only [List.length_append, List.length_cons, List.length_nil]
    omega
  have hpad : standardPadding g.state g.buffer =
      (g.state.compress ((g.buffer ++ [0x80]) ++
        List.replicate (g.state.blockBytes - (g.buffer ++ [0x80]).length) 0),
       List.replicate (g.state.blockBytes - 8) 0) := by
    rw [standardPadding]
    simp only [if_pos hcond]
  constructor
  · rw [hpad]
    rfl
  · rw [Groestl.finalBlock, hpad]
    have hdrop := List.drop_left
      (List.replicate (g.state.blockBytes - 8) (0 : Nat))
      (writeU64BE ((g.state.compress ((g.buffer ++ [0x80]) ++
        List.replicate (g.state.blockBytes - (g.buffer ++ [0x80]).length) 0)).num_blocks + 1))
    rw [List.length_replicate] at hdrop
    rw [hdrop]
    rfl

/-- Witness for C2 (amended) at a fresh Grøstl-256 hasher holding 56
buffered zero bytes. -/
theorem finalize_count_spec_witness :
    (standardPadding hasher56.state hasher56.buffer).1.num_blocks =
      hasher56.state.num_blocks + 1 ∧
    hasher56.finalBlock.drop (hasher56.state.blockBytes - 8) =
      writeU64BE (hasher56.state.num_blocks + 1 + 1) :=
  finalize_count_spec hasher56 (by decide)

/-- Counterexample to C9: constructing a hasher with digest length d = 72
incompatible with the block length 64 (d > blockBytes) is NOT rejected at
construction: `default` succeeds. -/
theorem construction_no_d_check : (groestlDefault 72 64).isSome = true := by decide

/-- C9 (amended): construction checks only the block size (`unreachable!`
for blockBytes ∉ {64, 128}) and accepts every digest length d; an
incompatible d > blockBytes is only rejected later, at finalize, which
panics (modelled as `none`). -/
theorem construction_check_spec (d L : Nat) :
    ((groestlDefault d L).isSome = true ↔ (L = 64 ∨ L = 128)) ∧
    (∀ s, groestlDefault d L = some s → L < d → s.finalize = none) := by
  constructor
  · rw [groestlDefault]
    by_cases h128 : L = 128
    · simp [h128]
    · by_cases h64 : L = 64 <;> simp [h128, h64]
  · intro s hs hd
    have hfields : s.blockBytes = L ∧ s.outputBytes = d := by
      rw [groestlDefault] at hs
      split at hs
      · cases hs; exact ⟨rfl, rfl⟩
      · split at hs
        · cases hs; exact ⟨rfl, rfl⟩
        · cases hs
    obtain ⟨hB, hO⟩ := hfields
    have hlen : (xor_generic_array s.blockBytes (s.p s.state) s.state).length =
        s.blockBytes := by
      simp [xor_generic_array]
    rw [GroestlState.finalize, if_neg (by rw [hlen]; omega)]

/-- Witness for C9 (amended) at d = 72, L = 64, with the concrete
constructed state `st72`. -/
theorem construction_check_spec_witness :
    ((groestlDefault 72 64).isSome = true ↔ (64 = 64 ∨ 64 = 128)) ∧
    st72.finalize = none :=
  ⟨(construction_check_spec 72 64).1,
   (construction_check_spec 72 64).2 st72 rfl (by decide)⟩

set_option maxRecDepth 100000 in
set_option maxHeartbeats 20000000 in
/-- C4: for the variant d = 32, blockBytes = 64 (Grøstl-256), hashing the
empty byte sequence yields the digest whose hex encoding is
1a52d11d550039be16107f9c58db9ebcc417f16f736adb2502567119f0083467. -/
theorem groestl256_empty :
    (groestl256 []).map hexEncode =
      some "1a52d11d550039be16107f9c58db9ebcc417f16f736adb2502567119f0083467" := by
  decide

end GroestlSpec
